import Mathlib

/-!
# Verification of the data-processor-framework event pipeline

Shallow embedding of the repository's Go source:
* `internal/inputs/http_receiver.go` — the HTTP ingestion gateway
  (`handleEvents`, `Read`, the receiver constructor registered in `init`);
* `internal/processors/category_filter.go` — `categoryFilter.Process`;
* `internal/processors/asset_enricher.go` — `assetEnricher.Process`,
  `extractNestedField`, `splitFieldPath`;
* `internal/processors/user_enricher.go` — `userEnricher.Process`;
* `internal/processors/threat_intel_enricher.go` — `threatIntel.Process`;
* `internal/processors/payload_tagger.go` — `PayloadTagger.tagMessage`,
  `addSemanticTags`, `addContentTags`;
* `internal/processors/common.go` — `fetchJSON`, modelled as an oracle
  `String → Except String (List (String × Json))` (URL to decoded object or
  error text), since the HTTP exchange itself is outside the embedding.

JSON values decoded by Go's `encoding/json` into `interface{}` are modelled by
the inductive type `Json`.  Go decodes every JSON number to `float64`; the
numeric fields the processors inspect (`type_id`, `class_uid`, `severity_id`,
`category_uid`, `status_id`) are integer-valued classifiers, so numbers are
modelled as `Int` (Go's `float64` represents these integers exactly and its
`==`/map-key comparisons coincide with integer equality on them).

Go's `map[string]interface{}` is modelled as an association list
`List (String × Json)`; `objGet` is map indexing and `objSet` is map
assignment (replace the binding if the key is present, insert otherwise).

Bento message metadata (`msg.MetaSet` / `msg.MetaGet`) is modelled as a
total function `Meta : String → Option String` with overwrite semantics.
-/

/-- JSON value as decoded by Go's `encoding/json` into `interface{}`. -/
inductive Json where
  | null
  | bool (b : Bool)
  | num (n : Int)
  | str (s : String)
  | arr (elems : List Json)
  | obj (fields : List (String × Json))

/-- A decoded JSON object (`map[string]interface{}` in the Go source). -/
abbrev JsonObj := List (String × Json)

/-- Go map indexing `obj[key]`: the value bound to `key`, if present. -/
def objGet (obj : JsonObj) (key : String) : Option Json :=
  match obj with
  | [] => none
  | (k, v) :: rest => if key = k then some v else objGet rest key

/-- Go map assignment `obj[key] = v`: replace the binding if present,
otherwise insert it. -/
def objSet (obj : JsonObj) (key : String) (v : Json) : JsonObj :=
  match obj with
  | [] => [(key, v)]
  | (k, w) :: rest => if key = k then (k, v) :: rest else (k, w) :: objSet rest key v

/-- Bento message metadata sidecar (string keys to string values). -/
abbrev Meta := String → Option String

/-- The empty metadata sidecar a message starts with. -/
def emptyMeta : Meta := fun _ => none

/-- `msg.MetaSet k v`: set metadata key `k` to `v`, overwriting. -/
def metaSet (m : Meta) (k v : String) : Meta :=
  fun k' => if k' = k then some v else m k'

/-- `msg.MetaGet k`: read metadata key `k`. -/
def metaGet (m : Meta) (k : String) : Option String := m k

/-- A Bento message: a JSON body plus its metadata sidecar. -/
structure Message where
  body : Json
  meta : Meta

/-! ## Ingestion gateway (`internal/inputs/http_receiver.go`) -/

/-- The `HTTPReceiver` struct.  `capacity` models the buffered-channel
capacity of `eventChan`; the constructor hard-codes it
(`make(chan []byte, 100)`). -/
structure HTTPReceiver where
  address : String
  path : String
  timeout : Nat
  maxBatchSize : Nat
  capacity : Nat

/-- The constructor registered in `init`: builds an `HTTPReceiver` from the
four configuration fields of the config spec (`address`, `path`, `timeout`,
`max_batch_size`).  The event channel is created as
`make(chan []byte, 100)` — capacity 100 regardless of configuration. -/
def mkHTTPReceiver (address path : String) (timeout maxBatchSize : Nat) : HTTPReceiver :=
  { address := address, path := path, timeout := timeout,
    maxBatchSize := maxBatchSize, capacity := 100 }

/-- Result of one `handleEvents` HTTP submission, as signalled by the
response status: 400 invalid JSON, 413 batch too large, 503 queue full
(the count accepted before the failure is logged, not returned),
202 accepted with a count. -/
inductive SubmissionResult where
  | malformedInput
  | batchTooLarge
  | queueFull (acceptedBeforeFailure : Nat)
  | accepted (count : Nat)
deriving DecidableEq, Repr

/-- The decode step of `handleEvents`.  The submission body is given as
`Option Json`: `none` when the bytes are not valid JSON, `some j` when they
decode to the value `j`.

The Go code first tries `json.Unmarshal(body, &events)` with
`events : []json.RawMessage`: this succeeds for any JSON array (elements
need not be objects) and also for JSON `null` (Go unmarshals `null` into a
slice as the nil slice, yielding zero events).  On failure it retries as a
single `json.RawMessage`, which succeeds for every valid JSON value of any
kind.  Only invalid JSON is rejected. -/
def decodeSubmission : Option Json → Option (List Json)
  | none => none
  | some Json.null => some []
  | some (Json.arr xs) => some xs
  | some j => some [j]

/-- The enqueue loop of `handleEvents`: non-blocking sends
(`select`/`default`) into the bounded channel.  Returns the number of
events accepted, the buffer afterwards, and whether the loop aborted on a
full channel. -/
def enqueueAll (cap : Nat) (buffer : List Json) : List Json → Nat × List Json × Bool
  | [] => (0, buffer, false)
  | e :: rest =>
    if buffer.length < cap then
      let r := enqueueAll cap (buffer ++ [e]) rest
      (r.1 + 1, r.2)
    else
      (0, buffer, true)

/-- `handleEvents`: decode the submission, enforce the batch-size limit,
then enqueue each event with a non-blocking send.  Returns the HTTP-level
result and the buffer contents afterwards.  (The method check and the
body-read error path concern the HTTP transport and are outside the
embedding.) -/
def handleEvents (h : HTTPReceiver) (buffer : List Json) (payload : Option Json) :
    SubmissionResult × List Json :=
  match decodeSubmission payload with
  | none => (SubmissionResult.malformedInput, buffer)
  | some events =>
    if events.length > h.maxBatchSize then
      (SubmissionResult.batchTooLarge, buffer)
    else
      let r := enqueueAll h.capacity buffer events
      if r.2.2 then
        (SubmissionResult.queueFull r.1, r.2.1)
      else
        (SubmissionResult.accepted r.1, r.2.1)

/-- `Read`: pull the next raw event from the channel; a `Message` is built
around the raw bytes and `http.received_at` is set to `time.Now()` at that
moment (`now` is the current clock reading when `Read` runs).  On an empty
buffer the timeout/cancellation branches yield no message (`none`). -/
def Read (h : HTTPReceiver) (buffer : List Json) (now : String) :
    Option (Message × List Json) :=
  match buffer with
  | [] => none
  | e :: rest =>
    some ({ body := e, meta := metaSet emptyMeta "http.received_at" now }, rest)

/-! ### Gateway lemmas -/

/-- The enqueue loop appends exactly the accepted prefix of the batch to the
buffer, accepts at most the whole batch, and reports a full queue only
mid-batch. -/
theorem enqueueAll_spec (cap : Nat) (events : List Json) (buffer : List Json) :
    (enqueueAll cap buffer events).2.1 =
      buffer ++ events.take (enqueueAll cap buffer events).1 ∧
    (enqueueAll cap buffer events).1 ≤ events.length ∧
    ((enqueueAll cap buffer events).2.2 = true →
      (enqueueAll cap buffer events).1 < events.length) := by
  induction events generalizing buffer with
  | nil => simp [enqueueAll]
  | cons e rest ih =>
    simp only [enqueueAll]
    by_cases hlt : buffer.length < cap
    · simp only [if_pos hlt]
      obtain ⟨h1, h2, h3⟩ := ih (buffer ++ [e])
      refine ⟨?_, ?_, ?_⟩
      · simpa [List.take_succ_cons] using h1
      · simpa using h2
      · intro hfull
        have := h3 hfull
        simpa using Nat.succ_lt_succ this
    · simp [if_neg hlt]

/-- When the enqueue loop does not hit a full queue it accepts every event. -/
theorem enqueueAll_not_full (cap : Nat) (events : List Json) (buffer : List Json)
    (h : (enqueueAll cap buffer events).2.2 = false) :
    (enqueueAll cap buffer events).1 = events.length ∧
    (enqueueAll cap buffer events).2.1 = buffer ++ events := by
  induction events generalizing buffer with
  | nil => simp [enqueueAll]
  | cons e rest ih =>
    simp only [enqueueAll] at h ⊢
    by_cases hlt : buffer.length < cap
    · simp only [if_pos hlt] at h ⊢
      obtain ⟨h1, h2⟩ := ih (buffer ++ [e]) h
      constructor
      · simpa using h1
      · simpa using h2
    · simp [if_neg hlt] at h

/-- On a full buffer the first enqueue already fails: nothing is accepted
and the buffer is unchanged. -/
theorem enqueueAll_full_buffer (cap : Nat) (buffer : List Json) (e : Json)
    (rest : List Json) (h : buffer.length = cap) :
    enqueueAll cap buffer (e :: rest) = (0, buffer, true) := by
  simp [enqueueAll, h]

/-! ## Gateway claims -/

/-- C1 (counterexample): the payload `42` is valid JSON but is neither an
object nor an array of objects; `handleEvents` nevertheless accepts it and
enqueues it as one event instead of rejecting it with `MalformedInput`. -/
theorem nonObject_payload_accepted_cex :
    handleEvents (mkHTTPReceiver "0.0.0.0:8080" "/events" 30 100) []
        (some (Json.num 42)) =
      (SubmissionResult.accepted 1, [Json.num 42]) ∧
    SubmissionResult.accepted 1 ≠ SubmissionResult.malformedInput := by
  exact ⟨rfl, by decide⟩

/-- C1 (amended): `handleEvents` answers `MalformedInput` exactly when the
submission body is not valid JSON, and such a rejection leaves the buffer
untouched; every valid JSON payload — object or not — passes the decode
step (an array contributes its elements, `null` contributes zero events,
any other value is one event). -/
theorem malformed_iff_invalid_json (h : HTTPReceiver) (buffer : List Json)
    (payload : Option Json) :
    ((handleEvents h buffer payload).1 = SubmissionResult.malformedInput ↔
      payload = none) ∧
    (payload = none →
      handleEvents h buffer payload = (SubmissionResult.malformedInput, buffer)) := by
  refine ⟨⟨?_, ?_⟩, ?_⟩
  · intro hm
    cases payload with
    | none => rfl
    | some j =>
      exfalso
      obtain ⟨events, he⟩ : ∃ events, decodeSubmission (some j) = some events := by
        cases j <;> exact ⟨_, rfl⟩
      revert hm
      simp only [handleEvents, he]
      by_cases hb : events.length > h.maxBatchSize
      · simp [hb]
      · simp only [if_neg hb]
        by_cases hf : (enqueueAll h.capacity buffer events).2.2 = true
        · simp [hf]
        · simp [hf]
  · intro hp
    subst hp
    rfl
  · intro hp
    subst hp
    rfl

/-- Closed witness for `malformed_iff_invalid_json`. -/
theorem malformed_iff_invalid_json_witness :
    handleEvents (mkHTTPReceiver "0.0.0.0:8080" "/events" 30 100) [] none =
      (SubmissionResult.malformedInput, []) :=
  (malformed_iff_invalid_json (mkHTTPReceiver "0.0.0.0:8080" "/events" 30 100)
    [] none).2 rfl

/-- C2: a submission whose decoded event count exceeds `max_batch_size` is
rejected as `BatchTooLarge` and the buffer is left exactly as it was —
zero of its events are enqueued. -/
theorem batch_too_large_rejected (h : HTTPReceiver) (buffer : List Json)
    (payload : Option Json) (events : List Json)
    (hd : decodeSubmission payload = some events)
    (hb : events.length > h.maxBatchSize) :
    handleEvents h buffer payload = (SubmissionResult.batchTooLarge, buffer) := by
  simp [handleEvents, hd, hb]

/-- Closed witness for `batch_too_large_rejected`: max batch size 1, a
two-event array is fully rejected. -/
theorem batch_too_large_rejected_witness :
    handleEvents (mkHTTPReceiver "0.0.0.0:8080" "/events" 30 1) []
        (some (Json.arr [Json.obj [], Json.obj []])) =
      (SubmissionResult.batchTooLarge, []) :=
  batch_too_large_rejected (mkHTTPReceiver "0.0.0.0:8080" "/events" 30 1) []
    (some (Json.arr [Json.obj [], Json.obj []])) [Json.obj [], Json.obj []]
    rfl (by decide)

/-- C3: (a) submitting one event to a buffer already holding
`capacity`-many events fails with `QueueFull` and the buffer still holds
exactly `capacity` events; (b) whenever a submission ends in `QueueFull`
after `k` accepted events, those `k` events (the batch prefix) remain
enqueued — no rollback — and the remainder of the batch is denied. -/
theorem queue_full_semantics :
    (∀ (h : HTTPReceiver) (buffer : List Json) (payload : Option Json) (e : Json),
      decodeSubmission payload = some [e] →
      buffer.length = h.capacity →
      1 ≤ h.maxBatchSize →
      handleEvents h buffer payload = (SubmissionResult.queueFull 0, buffer) ∧
      (handleEvents h buffer payload).2.length = h.capacity) ∧
    (∀ (h : HTTPReceiver) (buffer : List Json) (payload : Option Json)
        (events : List Json) (k : Nat),
      decodeSubmission payload = some events →
      ¬ events.length > h.maxBatchSize →
      (handleEvents h buffer payload).1 = SubmissionResult.queueFull k →
      (handleEvents h buffer payload).2 = buffer ++ events.take k ∧
      k < events.length) := by
  constructor
  · intro h buffer payload e hd hlen hmax
    have hb0 : ¬ h.maxBatchSize = 0 := by omega
    have hfull := enqueueAll_full_buffer h.capacity buffer e [] hlen
    constructor
    · simp [handleEvents, hd, hfull, hb0]
    · simp [handleEvents, hd, hfull, hb0, hlen]
  · intro h buffer payload events k hd hb hq
    simp only [handleEvents, hd, if_neg hb] at hq ⊢
    by_cases hf : (enqueueAll h.capacity buffer events).2.2 = true
    · simp only [hf, if_true] at hq ⊢
      have hk : (enqueueAll h.capacity buffer events).1 = k := by
        simpa using hq
      obtain ⟨h1, _, h3⟩ := enqueueAll_spec h.capacity events buffer
      exact ⟨by rw [← hk]; exact h1, by rw [← hk]; exact h3 hf⟩
    · simp only [Bool.not_eq_true] at hf
      simp [hf] at hq

/-- Closed witness for `queue_full_semantics`: a full buffer of 100 events
rejects a single further event unchanged, and a buffer of 99 events given a
two-event batch keeps the first event and denies the second. -/
theorem queue_full_semantics_witness :
    (handleEvents (mkHTTPReceiver "0.0.0.0:8080" "/events" 30 100)
        (List.replicate 100 (Json.obj [])) (some (Json.obj [])) =
      (SubmissionResult.queueFull 0, List.replicate 100 (Json.obj [])) ∧
     (handleEvents (mkHTTPReceiver "0.0.0.0:8080" "/events" 30 100)
        (List.replicate 100 (Json.obj [])) (some (Json.obj []))).2.length = 100) ∧
    ((handleEvents (mkHTTPReceiver "0.0.0.0:8080" "/events" 30 100)
        (List.replicate 99 Json.null)
        (some (Json.arr [Json.num 1, Json.num 2]))).2 =
      List.replicate 99 Json.null ++ (List.take 1 [Json.num 1, Json.num 2]) ∧
     1 < (List.length [Json.num 1, Json.num 2])) := by
  constructor
  · exact queue_full_semantics.1 (mkHTTPReceiver "0.0.0.0:8080" "/events" 30 100)
      (List.replicate 100 (Json.obj [])) (some (Json.obj [])) (Json.obj [])
      rfl (by simp [mkHTTPReceiver]) (by decide)
  · exact queue_full_semantics.2 (mkHTTPReceiver "0.0.0.0:8080" "/events" 30 100)
      (List.replicate 99 Json.null) (some (Json.arr [Json.num 1, Json.num 2]))
      [Json.num 1, Json.num 2] 1 rfl (by decide) (by decide)

/-- C4 (counterexample): the buffer stores only the raw event bytes; the
`http.received_at` metadata field is computed from the clock reading at the
moment `Read` pulls the event out.  The identical enqueued buffer read at
two different times carries two different timestamps, so the attached
timestamp does not reflect the moment the event entered the buffer. -/
theorem timestamp_not_at_enqueue_cex :
    (handleEvents (mkHTTPReceiver "0.0.0.0:8080" "/events" 30 100) []
        (some (Json.obj []))).2 = [Json.obj []] ∧
    Read (mkHTTPReceiver "0.0.0.0:8080" "/events" 30 100) [Json.obj []]
        "2025-01-01T00:00:01Z" =
      some ({ body := Json.obj [],
              meta := metaSet emptyMeta "http.received_at" "2025-01-01T00:00:01Z" },
            []) ∧
    Read (mkHTTPReceiver "0.0.0.0:8080" "/events" 30 100) [Json.obj []]
        "2025-01-01T09:30:00Z" =
      some ({ body := Json.obj [],
              meta := metaSet emptyMeta "http.received_at" "2025-01-01T09:30:00Z" },
            []) ∧
    metaGet (metaSet emptyMeta "http.received_at" "2025-01-01T00:00:01Z")
        "http.received_at" = some "2025-01-01T00:00:01Z" ∧
    metaGet (metaSet emptyMeta "http.received_at" "2025-01-01T09:30:00Z")
        "http.received_at" = some "2025-01-01T09:30:00Z" ∧
    ("2025-01-01T00:00:01Z" : String) ≠ "2025-01-01T09:30:00Z" := by
  refine ⟨rfl, rfl, rfl, ?_, ?_, by decide⟩
  · simp [metaGet, metaSet]
  · simp [metaGet, metaSet]

/-- C4 (amended): the ingestion timestamp `http.received_at` is attached in
`Read`, at dequeue time, stamping the clock reading at which the event is
pulled from the buffer; the bounded buffer itself stores only the raw
event. -/
theorem timestamp_attached_at_dequeue (h : HTTPReceiver) (e : Json)
    (rest : List Json) (now : String) :
    Read h (e :: rest) now =
      some ({ body := e, meta := metaSet emptyMeta "http.received_at" now }, rest) ∧
    metaGet (metaSet emptyMeta "http.received_at" now) "http.received_at" =
      some now := by
  exact ⟨rfl, by simp [metaGet, metaSet]⟩

/-- C10: the ingestion gateway constructor exposes exactly the four
configuration fields `address`, `path`, `timeout` and `max_batch_size`,
and regardless of their values the bounded buffer's capacity is the
hard-coded channel capacity 100. -/
theorem buffer_capacity_always_100 (address path : String)
    (timeout maxBatchSize : Nat) :
    (mkHTTPReceiver address path timeout maxBatchSize).capacity = 100 := rfl

/-! ## Category filter (`internal/processors/category_filter.go`) -/

/-- The `categoryFilter` struct.  The Go constructor converts the
`include`/`exclude` config string lists into maps for O(1) lookup; map
membership coincides with list membership and the map is non-empty exactly
when the list is, so the lists are kept here (`include` is a Lean keyword,
hence the `List` suffix). -/
structure categoryFilter where
  field : String
  includeList : List String
  excludeList : List String

/-- Outcome of a processor's `Process` call as the chain sees it:
a returned batch containing the message (continue), an empty batch
(drop), or a Go error (chain-level failure). -/
inductive FilterOutcome where
  | pass (obj : JsonObj)
  | drop
  | fail (errorMessage : String)

/-- `categoryFilter.Process`: read the configured field; missing or
non-string values pass through; then the include allowlist, then the
exclude denylist. -/
def categoryFilter.Process (p : categoryFilter) (body : Json) : FilterOutcome :=
  match body with
  | Json.obj obj =>
    match objGet obj p.field with
    | none => FilterOutcome.pass obj
    | some raw =>
      match raw with
      | Json.str val =>
        if p.includeList.length > 0 && !(p.includeList.contains val) then
          FilterOutcome.drop
        else if p.excludeList.length > 0 && p.excludeList.contains val then
          FilterOutcome.drop
        else
          FilterOutcome.pass obj
      | _ => FilterOutcome.pass obj
  | _ => FilterOutcome.fail "category_filter expects object"

/-- The spec's §4.4 decision algorithm, written from the spec's words:
(1) field absent or not a string → Continue; (2) allow set non-empty and
value not a member → Drop; (3) deny set non-empty and value a member →
Drop; (4) otherwise Continue. -/
def specCategoryDecision (allowSet denySet : List String) (fieldValue : Option Json)
    (obj : JsonObj) : FilterOutcome :=
  match fieldValue with
  | some (Json.str v) =>
    if allowSet ≠ [] ∧ v ∉ allowSet then FilterOutcome.drop
    else if denySet ≠ [] ∧ v ∈ denySet then FilterOutcome.drop
    else FilterOutcome.pass obj
  | _ => FilterOutcome.pass obj

/-- C8: the category filter computes exactly the spec's ordered decision on
every object record, and the spec's concrete examples hold: with
allow={"security"}, deny={"test"} the categories "security" (pass),
"finance" (drop), absent (pass); with allow={}, deny={"test"} the
categories "test" (drop) and "other" (pass). -/
theorem category_filter_ordered_decision :
    (∀ (p : categoryFilter) (obj : JsonObj),
      categoryFilter.Process p (Json.obj obj) =
        specCategoryDecision p.includeList p.excludeList (objGet obj p.field) obj) ∧
    categoryFilter.Process ⟨"category", ["security"], ["test"]⟩
        (Json.obj [("category", Json.str "security")]) =
      FilterOutcome.pass [("category", Json.str "security")] ∧
    categoryFilter.Process ⟨"category", ["security"], ["test"]⟩
        (Json.obj [("category", Json.str "finance")]) =
      FilterOutcome.drop ∧
    categoryFilter.Process ⟨"category", ["security"], ["test"]⟩
        (Json.obj [("other_field", Json.num 1)]) =
      FilterOutcome.pass [("other_field", Json.num 1)] ∧
    categoryFilter.Process ⟨"category", [], ["test"]⟩
        (Json.obj [("category", Json.str "test")]) =
      FilterOutcome.drop ∧
    categoryFilter.Process ⟨"category", [], ["test"]⟩
        (Json.obj [("category", Json.str "other")]) =
      FilterOutcome.pass [("category", Json.str "other")] := by
  refine ⟨?_, rfl, rfl, rfl, rfl, rfl⟩
  intro p obj
  simp only [categoryFilter.Process, specCategoryDecision]
  cases objGet obj p.field with
  | none => rfl
  | some raw =>
    cases raw with
    | str val =>
      by_cases hinc : p.includeList = [] <;>
      by_cases hmem : val ∈ p.includeList <;>
      by_cases hexc : p.excludeList = [] <;>
      by_cases hmem2 : val ∈ p.excludeList <;>
      simp [hinc, hmem, hexc, hmem2, List.contains, List.elem_eq_mem,
        List.length_pos]
    | null => rfl
    | bool b => rfl
    | num n => rfl
    | arr elems => rfl
    | obj fields => rfl

/-! ## Enrichment units

The External Lookup Client (`fetchJSON` in `common.go`) is modelled as an
oracle from the request URL to either the decoded non-null JSON object of a
successful response or the error text of a failure (non-2xx status,
network/timeout error, JSON decode failure or null body). -/

/-- Outcome of one `fetchJSON` call at a given URL. -/
abbrev Lookup := String → Except String JsonObj

/-- `splitFieldPath`: split a dot-separated path into its non-empty parts
(the Go loop over the characters of the path). -/
def splitFieldPath (path : String) : List String :=
  let step : (List String × String) → Char → (List String × String) :=
    fun acc ch =>
      if ch = '.' then
        if acc.2 = "" then acc else (acc.1 ++ [acc.2], "")
      else
        (acc.1, acc.2.push ch)
  let r := path.data.foldl step ([], "")
  if r.2 = "" then r.1 else r.1 ++ [r.2]

/-- The traversal loop of `extractNestedField`: descend one mapping level
per path part; a non-mapping intermediate value or an absent key stops the
descent with no result. -/
def nestedLookup : Json → List String → Option Json
  | current, [] => some current
  | current, part :: rest =>
    match current with
    | Json.obj m =>
      match objGet m part with
      | some next => nestedLookup next rest
      | none => none
    | _ => none

/-- `extractNestedField`: resolve a dotted path against the record and
return the final value if it is a string, the empty string otherwise
(absent segment, non-mapping intermediate, or non-string final value). -/
def extractNestedField (obj : JsonObj) (fieldPath : String) : String :=
  match nestedLookup (Json.obj obj) (splitFieldPath fieldPath) with
  | some (Json.str s) => s
  | _ => ""

/-- The `assetEnricher` struct (`endpoint`, `id_field`, `timeout`). -/
structure assetEnricher where
  endpoint : String
  idField : String
  timeout : Nat

/-- `assetEnricher.Process` on an object-bodied message: resolve the id
field as a dotted nested path; on a non-empty string key, issue one lookup
`GET endpoint/key`; on lookup failure set the `asset_enrich_error` metadata
marker and pass the record through; on success attach the mapping under
`asset` and derive the contextual tags.  The third component of the result
lists the URLs fetched. -/
def assetEnricher.Process (p : assetEnricher) (lookup : Lookup) (obj : JsonObj)
    (meta : Meta) : JsonObj × Meta × List String :=
  let assetID := extractNestedField obj p.idField
  if assetID = "" then
    (obj, meta, [])
  else
    let url := p.endpoint ++ "/" ++ assetID
    match lookup url with
    | Except.error e => (obj, metaSet meta "asset_enrich_error" e, [url])
    | Except.ok data =>
      let obj1 := objSet obj "asset" (Json.obj data)
      let tags0 : List Json :=
        match objGet obj1 "tags" with
        | some (Json.arr existingTags) => existingTags
        | _ => []
      let tags1 : List Json :=
        match objGet obj1 "class_uid" with
        | some (Json.num classUID) =>
          if classUID = 2004 then
            let t := tags0 ++ [Json.str "ocsf_detection_finding"]
            let t :=
              match objGet obj1 "severity_id" with
              | some (Json.num severityID) =>
                let t := if severityID ≥ 4 then t ++ [Json.str "high_severity"] else t
                if severityID = 5 then t ++ [Json.str "critical_severity"] else t
              | _ => t
            match objGet obj1 "finding" with
            | some (Json.obj finding) =>
              match objGet finding "title" with
              | some (Json.str title) =>
                if title ≠ "" then t ++ [Json.str "has_finding_title"] else t
              | _ => t
            | _ => t
          else tags0
        | _ => tags0
      let tags2 : List Json :=
        match objGet obj1 "class_uid" with
        | some (Json.num classUID) =>
          if classUID = 1007 then
            tags1 ++ [Json.str "ocsf_process_activity", Json.str "edr_event"]
          else tags1
        | _ => tags1
      let tags3 : List Json :=
        match objGet obj1 "observables" with
        | some (Json.arr observables) =>
          if observables.length > 0 then tags2 ++ [Json.str "has_observables"] else tags2
        | _ => tags2
      let tags4 : List Json :=
        match objGet data "owner" with
        | some (Json.str owner) =>
          if owner = "IT" then tags3 ++ [Json.str "it_asset"] else tags3
        | _ => tags3
      let tags5 : List Json :=
        match objGet data "criticality" with
        | some (Json.str criticality) =>
          if criticality = "high" then tags4 ++ [Json.str "critical_asset"] else tags4
        | _ => tags4
      (objSet obj1 "tags" (Json.arr tags5), meta, [url])

/-- The `userEnricher` struct (`endpoint`, `id_field`, `timeout`). -/
structure userEnricher where
  endpoint : String
  idField : String
  timeout : Nat

/-- `userEnricher.Process` on an object-bodied message: read `obj[idField]`
as a single literal top-level key (no dotted traversal); if it is a
non-empty string, issue one lookup `GET endpoint/key`; on failure set the
`user_enrich_error` marker; on success attach the mapping under `user`. -/
def userEnricher.Process (p : userEnricher) (lookup : Lookup) (obj : JsonObj)
    (meta : Meta) : JsonObj × Meta × List String :=
  match objGet obj p.idField with
  | none => (obj, meta, [])
  | some rawID =>
    match rawID with
    | Json.str userID =>
      if userID = "" then
        (obj, meta, [])
      else
        let url := p.endpoint ++ "/" ++ userID
        match lookup url with
        | Except.error e => (obj, metaSet meta "user_enrich_error" e, [url])
        | Except.ok data => (objSet obj "user" (Json.obj data), meta, [url])
    | _ => (obj, meta, [])

/-- The key the user enricher actually resolves: the literal top-level
field value when it is a string, the empty string otherwise.  (A
formalisation helper, mirroring the two `ok` checks in the source.) -/
def userLookupKey (obj : JsonObj) (field : String) : String :=
  match objGet obj field with
  | some (Json.str s) => s
  | _ => ""

/-- The `threatIntel` struct (`endpoint`, `timeout`). -/
structure threatIntel where
  endpoint : String
  timeout : Nat

/-- The fixed set of observable `type_id`s eligible for threat-intel
enrichment: hostname 1, IP 2, domain 4, email 5, file name 7, file hash 8,
URL 23. -/
def threatIntelTypes : List Int := [1, 2, 4, 5, 7, 8, 23]

/-- The `type_id` extraction switch: the Go code accepts `float64`, `int`,
`int64` and `json.Number` representations of the decoded number; in the
model all of these are the single numeric constructor. -/
def threatIntel.observableTypeId (observable : JsonObj) : Option Int :=
  match objGet observable "type_id" with
  | some (Json.num n) => some n
  | _ => none

/-- One iteration of the observables loop in `threatIntel.Process`:
non-object entries, ineligible or absent `type_id`s, and missing or empty
names are skipped unchanged; otherwise one lookup is issued and, on
success, the returned mapping is attached onto this observable under
`threat_intel` (failures are logged only and leave it unchanged).  The
second component lists the URLs fetched. -/
def threatIntel.enrichObservable (p : threatIntel) (lookup : Lookup) (obs : Json) :
    Json × List String :=
  match obs with
  | Json.obj observable =>
    match threatIntel.observableTypeId observable with
    | none => (obs, [])
    | some typeID =>
      if threatIntelTypes.contains typeID then
        match objGet observable "name" with
        | some (Json.str name) =>
          if name = "" then
            (obs, [])
          else
            let url := p.endpoint ++ "/" ++ name
            match lookup url with
            | Except.error _ => (obs, [url])
            | Except.ok data =>
              (Json.obj (objSet observable "threat_intel" (Json.obj data)), [url])
        | _ => (obs, [])
      else
        (obs, [])
  | _ => (obs, [])

/-- The observables loop of `threatIntel.Process`, in order.  (The
`enrichedCount` the source keeps is only logged, never attached to the
record, and is not modelled.) -/
def threatIntel.enrichLoop (p : threatIntel) (lookup : Lookup) :
    List Json → List Json × List String
  | [] => ([], [])
  | obs :: rest =>
    let r := threatIntel.enrichObservable p lookup obs
    let l := threatIntel.enrichLoop p lookup rest
    (r.1 :: l.1, r.2 ++ l.2)

/-- `threatIntel.Process` on an object-bodied message: if the record has a
non-empty `observables` array, run the loop over it in place and set the
result back; otherwise the record passes through unchanged.  The unit
never touches the metadata sidecar. -/
def threatIntel.Process (p : threatIntel) (lookup : Lookup) (obj : JsonObj)
    (meta : Meta) : JsonObj × Meta × List String :=
  match objGet obj "observables" with
  | some (Json.arr observables) =>
    if observables.length > 0 then
      let r := threatIntel.enrichLoop p lookup observables
      (objSet obj "observables" (Json.arr r.1), meta, r.2)
    else
      (obj, meta, [])
  | _ => (obj, meta, [])

/-- The observables loop maps each observable independently through
`enrichObservable`, preserving order and length. -/
theorem enrichLoop_map (p : threatIntel) (lookup : Lookup) (l : List Json) :
    (threatIntel.enrichLoop p lookup l).1 =
      l.map (fun o => (threatIntel.enrichObservable p lookup o).1) := by
  induction l with
  | nil => rfl
  | cons obs rest ih => simp [threatIntel.enrichLoop, ih]

/-! ## Enricher claims -/

/-- C5 (counterexample): with `id_field = "a.b"` and the record
`{"a": {"b": "x"}}`, dotted resolution yields the non-empty string "x",
yet the user enricher performs no lookup and returns the record unchanged:
it reads `obj["a.b"]` as one literal key, not as a dotted path. -/
theorem user_enricher_not_dotted_cex :
    extractNestedField [("a", Json.obj [("b", Json.str "x")])] "a.b" = "x" ∧
    userEnricher.Process ⟨"http://user-api/users", "a.b", 5⟩
        (fun _ => Except.ok []) [("a", Json.obj [("b", Json.str "x")])] emptyMeta =
      ([("a", Json.obj [("b", Json.str "x")])], emptyMeta, []) := by
  exact ⟨rfl, rfl⟩

/-- C5 (amended): the asset enricher resolves its id field as a dotted
nested path (`extractNestedField`: descend one mapping level per segment; a
non-mapping intermediate or an absent segment yields not-found, treated
identically to a missing field); the user enricher resolves its id field as
a single literal top-level key.  For each unit, when its own resolution
does not yield a non-empty string the record's body is returned unchanged
field-for-field and the External Lookup Client is not invoked; when it
yields the non-empty string `s`, exactly one lookup at `endpoint/s` is
issued. -/
theorem enricher_key_resolution :
    (∀ (j : Json) (part : String) (rest : List String),
      (∀ m : JsonObj, j ≠ Json.obj m) → nestedLookup j (part :: rest) = none) ∧
    (∀ (m : JsonObj) (part : String) (rest : List String),
      objGet m part = none → nestedLookup (Json.obj m) (part :: rest) = none) ∧
    (∀ (p : assetEnricher) (lookup : Lookup) (obj : JsonObj) (meta : Meta),
      extractNestedField obj p.idField = "" →
      assetEnricher.Process p lookup obj meta = (obj, meta, [])) ∧
    (∀ (p : assetEnricher) (lookup : Lookup) (obj : JsonObj) (meta : Meta),
      extractNestedField obj p.idField ≠ "" →
      (assetEnricher.Process p lookup obj meta).2.2 =
        [p.endpoint ++ "/" ++ extractNestedField obj p.idField]) ∧
    (∀ (p : userEnricher) (lookup : Lookup) (obj : JsonObj) (meta : Meta),
      userLookupKey obj p.idField = "" →
      userEnricher.Process p lookup obj meta = (obj, meta, [])) ∧
    (∀ (p : userEnricher) (lookup : Lookup) (obj : JsonObj) (meta : Meta),
      userLookupKey obj p.idField ≠ "" →
      (userEnricher.Process p lookup obj meta).2.2 =
        [p.endpoint ++ "/" ++ userLookupKey obj p.idField]) := by
  refine ⟨?_, ?_, ?_, ?_, ?_, ?_⟩
  · intro j part rest hj
    cases j with
    | obj m => exact absurd rfl (hj m)
    | null => rfl
    | bool b => rfl
    | num n => rfl
    | str s => rfl
    | arr elems => rfl
  · intro m part rest hm
    simp [nestedLookup, hm]
  · intro p lookup obj meta hmiss
    simp [assetEnricher.Process, hmiss]
  · intro p lookup obj meta hhit
    simp only [assetEnricher.Process, if_neg hhit]
    cases lookup (p.endpoint ++ "/" ++ extractNestedField obj p.idField) <;> simp
  · intro p lookup obj meta hmiss
    unfold userLookupKey at hmiss
    unfold userEnricher.Process
    cases hget : objGet obj p.idField with
    | none => rfl
    | some raw =>
      rw [hget] at hmiss
      cases raw with
      | str s =>
        have hs : s = "" := by simpa using hmiss
        simp [hs]
      | null => rfl
      | bool b => rfl
      | num n => rfl
      | arr elems => rfl
      | obj fields => rfl
  · intro p lookup obj meta hhit
    unfold userLookupKey at hhit
    unfold userEnricher.Process
    cases hget : objGet obj p.idField with
    | none => rw [hget] at hhit; exact absurd rfl hhit
    | some raw =>
      rw [hget] at hhit
      cases raw with
      | str s =>
        have hs : ¬ s = "" := by simpa using hhit
        have hk : userLookupKey obj p.idField = s := by simp [userLookupKey, hget]
        simp only [if_neg hs, hk]
        cases lookup (p.endpoint ++ "/" ++ s) <;> simp
      | null => exact absurd rfl hhit
      | bool b => exact absurd rfl hhit
      | num n => exact absurd rfl hhit
      | arr elems => exact absurd rfl hhit
      | obj fields => exact absurd rfl hhit

/-- Closed witness for `enricher_key_resolution`: a dotted miss and a
dotted hit for the asset enricher, a literal miss and hit for the user
enricher, and the two not-found shapes of the nested rule. -/
theorem enricher_key_resolution_witness :
    nestedLookup (Json.str "leaf") ["uid"] = none ∧
    nestedLookup (Json.obj [("device", Json.num 1)]) ["missing"] = none ∧
    assetEnricher.Process ⟨"http://assets", "device.uid", 5⟩
        (fun _ => Except.ok []) [("device", Json.num 7)] emptyMeta =
      ([("device", Json.num 7)], emptyMeta, []) ∧
    (assetEnricher.Process ⟨"http://assets", "device.uid", 5⟩
        (fun _ => Except.ok []) [("device", Json.obj [("uid", Json.str "d1")])]
        emptyMeta).2.2 =
      ["http://assets" ++ "/" ++
        extractNestedField [("device", Json.obj [("uid", Json.str "d1")])] "device.uid"] ∧
    userEnricher.Process ⟨"http://users", "user_id", 5⟩
        (fun _ => Except.ok []) [("user_id", Json.num 3)] emptyMeta =
      ([("user_id", Json.num 3)], emptyMeta, []) ∧
    (userEnricher.Process ⟨"http://users", "user_id", 5⟩
        (fun _ => Except.ok []) [("user_id", Json.str "alice")] emptyMeta).2.2 =
      ["http://users" ++ "/" ++
        userLookupKey [("user_id", Json.str "alice")] "user_id"] := by
  refine ⟨?_, ?_, ?_, ?_, ?_, ?_⟩
  · exact enricher_key_resolution.1 (Json.str "leaf") "uid" []
      (fun m h => by cases h)
  · exact enricher_key_resolution.2.1 [("device", Json.num 1)] "missing" [] rfl
  · exact enricher_key_resolution.2.2.1 ⟨"http://assets", "device.uid", 5⟩
      (fun _ => Except.ok []) [("device", Json.num 7)] emptyMeta rfl
  · exact enricher_key_resolution.2.2.2.1 ⟨"http://assets", "device.uid", 5⟩
      (fun _ => Except.ok []) [("device", Json.obj [("uid", Json.str "d1")])]
      emptyMeta (by decide)
  · exact enricher_key_resolution.2.2.2.2.1 ⟨"http://users", "user_id", 5⟩
      (fun _ => Except.ok []) [("user_id", Json.num 3)] emptyMeta rfl
  · exact enricher_key_resolution.2.2.2.2.2 ⟨"http://users", "user_id", 5⟩
      (fun _ => Except.ok []) [("user_id", Json.str "alice")] emptyMeta (by decide)

/-- C6: on a record carrying a non-empty observables sequence, the
threat-intel unit rewrites exactly the `observables` field to the
element-wise image of the per-observable step — so order is preserved, the
length is unchanged, and siblings do not influence one another — and the
per-observable step leaves observables with an absent or ineligible
`type_id` or a missing/empty/non-string `name` unchanged, while an eligible
observable whose lookup succeeds gains a `threat_intel` field on that
specific observable. -/
theorem threat_intel_per_observable :
    (∀ (p : threatIntel) (lookup : Lookup) (obj : JsonObj) (meta : Meta)
        (observables : List Json),
      objGet obj "observables" = some (Json.arr observables) →
      observables.length > 0 →
      threatIntel.Process p lookup obj meta =
        (objSet obj "observables"
          (Json.arr (observables.map
            (fun o => (threatIntel.enrichObservable p lookup o).1))),
         meta, (threatIntel.enrichLoop p lookup observables).2) ∧
      (observables.map
        (fun o => (threatIntel.enrichObservable p lookup o).1)).length =
        observables.length) ∧
    (∀ (p : threatIntel) (lookup : Lookup) (m : JsonObj),
      threatIntel.observableTypeId m = none →
      (threatIntel.enrichObservable p lookup (Json.obj m)).1 = Json.obj m) ∧
    (∀ (p : threatIntel) (lookup : Lookup) (m : JsonObj) (t : Int),
      threatIntel.observableTypeId m = some t →
      threatIntelTypes.contains t = false →
      (threatIntel.enrichObservable p lookup (Json.obj m)).1 = Json.obj m) ∧
    (∀ (p : threatIntel) (lookup : Lookup) (m : JsonObj) (t : Int),
      threatIntel.observableTypeId m = some t →
      threatIntelTypes.contains t = true →
      (∀ s, objGet m "name" = some (Json.str s) → s = "") →
      threatIntel.enrichObservable p lookup (Json.obj m) = (Json.obj m, [])) ∧
    (∀ (p : threatIntel) (lookup : Lookup) (m : JsonObj) (t : Int) (s : String)
        (d : JsonObj),
      threatIntel.observableTypeId m = some t →
      threatIntelTypes.contains t = true →
      objGet m "name" = some (Json.str s) → s ≠ "" →
      lookup (p.endpoint ++ "/" ++ s) = Except.ok d →
      (threatIntel.enrichObservable p lookup (Json.obj m)).1 =
        Json.obj (objSet m "threat_intel" (Json.obj d))) := by
  refine ⟨?_, ?_, ?_, ?_, ?_⟩
  · intro p lookup obj meta observables hobs hlen
    constructor
    · simp [threatIntel.Process, hobs, hlen, enrichLoop_map]
    · simp
  · intro p lookup m ht
    simp [threatIntel.enrichObservable, ht]
  · intro p lookup m t ht hc
    have hc2 : t ∉ threatIntelTypes := by
      simpa [List.contains, List.elem_eq_mem] using hc
    simp [threatIntel.enrichObservable, ht, hc2]
  · intro p lookup m t ht hc hname
    simp only [threatIntel.enrichObservable, ht, hc, if_true]
    cases hn : objGet m "name" with
    | none => rfl
    | some raw =>
      cases raw with
      | str s => simp [hname s hn]
      | null => rfl
      | bool b => rfl
      | num n => rfl
      | arr elems => rfl
      | obj fields => rfl
  · intro p lookup m t s d ht hc hn hs hlk
    have hc2 : t ∈ threatIntelTypes := by
      simpa [List.contains, List.elem_eq_mem] using hc
    simp [threatIntel.enrichObservable, ht, hc2, hn, hs, hlk]

/-- Closed witness for `threat_intel_per_observable`: a record with an
eligible file-name observable (type 7) and an ineligible process-name
observable (type 9); the lookup succeeds, the first observable gains
`threat_intel`, the second is untouched, order and length are preserved. -/
theorem threat_intel_per_observable_witness :
    (threatIntel.Process ⟨"http://intel", 5⟩
        (fun _ => Except.ok [("severity", Json.str "high")])
        [("class_uid", Json.num 2004),
         ("observables", Json.arr
           [Json.obj [("name", Json.str "evil.exe"), ("type_id", Json.num 7)],
            Json.obj [("name", Json.str "winword"), ("type_id", Json.num 9)]])]
        emptyMeta =
      (objSet
        [("class_uid", Json.num 2004),
         ("observables", Json.arr
           [Json.obj [("name", Json.str "evil.exe"), ("type_id", Json.num 7)],
            Json.obj [("name", Json.str "winword"), ("type_id", Json.num 9)]])]
        "observables"
        (Json.arr
          ([Json.obj [("name", Json.str "evil.exe"), ("type_id", Json.num 7)],
            Json.obj [("name", Json.str "winword"), ("type_id", Json.num 9)]].map
            (fun o => (threatIntel.enrichObservable ⟨"http://intel", 5⟩
              (fun _ => Except.ok [("severity", Json.str "high")]) o).1))),
       emptyMeta,
       (threatIntel.enrichLoop ⟨"http://intel", 5⟩
         (fun _ => Except.ok [("severity", Json.str "high")])
         [Json.obj [("name", Json.str "evil.exe"), ("type_id", Json.num 7)],
          Json.obj [("name", Json.str "winword"), ("type_id", Json.num 9)]]).2) ∧
     ([Json.obj [("name", Json.str "evil.exe"), ("type_id", Json.num 7)],
       Json.obj [("name", Json.str "winword"), ("type_id", Json.num 9)]].map
        (fun o => (threatIntel.enrichObservable ⟨"http://intel", 5⟩
          (fun _ => Except.ok [("severity", Json.str "high")]) o).1)).length = 2) ∧
    (threatIntel.enrichObservable ⟨"http://intel", 5⟩
        (fun _ => Except.ok [("severity", Json.str "high")])
        (Json.obj [("name", Json.str "winword"), ("type_id", Json.num 9)])).1 =
      Json.obj [("name", Json.str "winword"), ("type_id", Json.num 9)] ∧
    (threatIntel.enrichObservable ⟨"http://intel", 5⟩
        (fun _ => Except.ok [("severity", Json.str "high")])
        (Json.obj [("name", Json.str "evil.exe"), ("type_id", Json.num 7)])).1 =
      Json.obj (objSet [("name", Json.str "evil.exe"), ("type_id", Json.num 7)]
        "threat_intel" (Json.obj [("severity", Json.str "high")])) := by
  refine ⟨?_, ?_, ?_⟩
  · exact threat_intel_per_observable.1 ⟨"http://intel", 5⟩
      (fun _ => Except.ok [("severity", Json.str "high")])
      [("class_uid", Json.num 2004),
       ("observables", Json.arr
         [Json.obj [("name", Json.str "evil.exe"), ("type_id", Json.num 7)],
          Json.obj [("name", Json.str "winword"), ("type_id", Json.num 9)]])]
      emptyMeta
      [Json.obj [("name", Json.str "evil.exe"), ("type_id", Json.num 7)],
       Json.obj [("name", Json.str "winword"), ("type_id", Json.num 9)]]
      rfl (by decide)
  · exact threat_intel_per_observable.2.2.1 ⟨"http://intel", 5⟩
      (fun _ => Except.ok [("severity", Json.str "high")])
      [("name", Json.str "winword"), ("type_id", Json.num 9)] 9 rfl (by decide)
  · exact threat_intel_per_observable.2.2.2.2 ⟨"http://intel", 5⟩
      (fun _ => Except.ok [("severity", Json.str "high")])
      [("name", Json.str "evil.exe"), ("type_id", Json.num 7)] 7 "evil.exe"
      [("severity", Json.str "high")] rfl (by decide) rfl (by decide) rfl

/-- C7 (counterexample): a threat-intel lookup that fails (connection
refused) for an eligible observable is not recorded as any metadata error
marker: the unit returns the record and the metadata sidecar exactly as
they came in, with the failed URL having been fetched. -/
theorem ti_lookup_failure_no_marker_cex :
    threatIntel.Process ⟨"http://intel", 5⟩
        (fun _ => Except.error "connection refused")
        [("observables", Json.arr
          [Json.obj [("name", Json.str "evil.exe"), ("type_id", Json.num 7)]])]
        emptyMeta =
      ([("observables", Json.arr
          [Json.obj [("name", Json.str "evil.exe"), ("type_id", Json.num 7)]])],
       emptyMeta, ["http://intel/evil.exe"]) ∧
    (fun (_ : String) => (Except.error "connection refused" : Except String JsonObj))
        "http://intel/evil.exe" = Except.error "connection refused" := by
  exact ⟨rfl, rfl⟩

/-- C7 (amended): a failed asset or user lookup is recorded as the
`asset_enrich_error` / `user_enrich_error` metadata marker and the unit
returns the record (never a chain-level failure); a failed threat-intel
lookup is only logged — the unit never writes any metadata — and the
record is likewise returned with the failing observable unenriched. -/
theorem lookup_failure_degrades :
    (∀ (p : assetEnricher) (lookup : Lookup) (obj : JsonObj) (meta : Meta)
        (e : String),
      extractNestedField obj p.idField ≠ "" →
      lookup (p.endpoint ++ "/" ++ extractNestedField obj p.idField) =
        Except.error e →
      assetEnricher.Process p lookup obj meta =
        (obj, metaSet meta "asset_enrich_error" e,
         [p.endpoint ++ "/" ++ extractNestedField obj p.idField])) ∧
    (∀ (p : userEnricher) (lookup : Lookup) (obj : JsonObj) (meta : Meta)
        (s e : String),
      objGet obj p.idField = some (Json.str s) → s ≠ "" →
      lookup (p.endpoint ++ "/" ++ s) = Except.error e →
      userEnricher.Process p lookup obj meta =
        (obj, metaSet meta "user_enrich_error" e, [p.endpoint ++ "/" ++ s])) ∧
    (∀ (p : threatIntel) (lookup : Lookup) (m : JsonObj) (t : Int) (s : String)
        (e : String),
      threatIntel.observableTypeId m = some t →
      threatIntelTypes.contains t = true →
      objGet m "name" = some (Json.str s) → s ≠ "" →
      lookup (p.endpoint ++ "/" ++ s) = Except.error e →
      threatIntel.enrichObservable p lookup (Json.obj m) =
        (Json.obj m, [p.endpoint ++ "/" ++ s])) ∧
    (∀ (p : threatIntel) (lookup : Lookup) (obj : JsonObj) (meta : Meta),
      (threatIntel.Process p lookup obj meta).2.1 = meta) := by
  refine ⟨?_, ?_, ?_, ?_⟩
  · intro p lookup obj meta e hhit hlk
    simp [assetEnricher.Process, hhit, hlk]
  · intro p lookup obj meta s e hget hs hlk
    simp [userEnricher.Process, hget, hs, hlk]
  · intro p lookup m t s e ht hc hn hs hlk
    have hc2 : t ∈ threatIntelTypes := by
      simpa [List.contains, List.elem_eq_mem] using hc
    simp [threatIntel.enrichObservable, ht, hc2, hn, hs, hlk]
  · intro p lookup obj meta
    unfold threatIntel.Process
    cases objGet obj "observables" with
    | none => rfl
    | some v =>
      cases v with
      | arr observables =>
        by_cases hlen : observables.length > 0 <;> simp [hlen]
      | null => rfl
      | bool b => rfl
      | num n => rfl
      | str s => rfl
      | obj fields => rfl

/-- Closed witness for `lookup_failure_degrades`: each of the three units
run against a lookup that always fails. -/
theorem lookup_failure_degrades_witness :
    assetEnricher.Process ⟨"http://assets", "asset_id", 5⟩
        (fun _ => Except.error "http status 500: boom")
        [("asset_id", Json.str "a-1")] emptyMeta =
      ([("asset_id", Json.str "a-1")],
       metaSet emptyMeta "asset_enrich_error" "http status 500: boom",
       ["http://assets" ++ "/" ++
         extractNestedField [("asset_id", Json.str "a-1")] "asset_id"]) ∧
    userEnricher.Process ⟨"http://users", "user_id", 5⟩
        (fun _ => Except.error "http status 500: boom")
        [("user_id", Json.str "u-1")] emptyMeta =
      ([("user_id", Json.str "u-1")],
       metaSet emptyMeta "user_enrich_error" "http status 500: boom",
       ["http://users" ++ "/" ++ "u-1"]) ∧
    threatIntel.enrichObservable ⟨"http://intel", 5⟩
        (fun _ => Except.error "http status 500: boom")
        (Json.obj [("name", Json.str "evil.org"), ("type_id", Json.num 4)]) =
      (Json.obj [("name", Json.str "evil.org"), ("type_id", Json.num 4)],
       ["http://intel" ++ "/" ++ "evil.org"]) ∧
    (threatIntel.Process ⟨"http://intel", 5⟩
        (fun _ => Except.error "http status 500: boom")
        [("observables", Json.arr
          [Json.obj [("name", Json.str "evil.org"), ("type_id", Json.num 4)]])]
        emptyMeta).2.1 = emptyMeta := by
  refine ⟨?_, ?_, ?_, ?_⟩
  · exact lookup_failure_degrades.1 ⟨"http://assets", "asset_id", 5⟩
      (fun _ => Except.error "http status 500: boom")
      [("asset_id", Json.str "a-1")] emptyMeta "http status 500: boom"
      (by decide) rfl
  · exact lookup_failure_degrades.2.1 ⟨"http://users", "user_id", 5⟩
      (fun _ => Except.error "http status 500: boom")
      [("user_id", Json.str "u-1")] emptyMeta "u-1" "http status 500: boom"
      rfl (by decide) rfl
  · exact lookup_failure_degrades.2.2.1 ⟨"http://intel", 5⟩
      (fun _ => Except.error "http status 500: boom")
      [("name", Json.str "evil.org"), ("type_id", Json.num 4)] 4 "evil.org"
      "http status 500: boom" rfl (by decide) rfl (by decide) rfl
  · exact lookup_failure_degrades.2.2.2 ⟨"http://intel", 5⟩
      (fun _ => Except.error "http status 500: boom")
      [("observables", Json.arr
        [Json.obj [("name", Json.str "evil.org"), ("type_id", Json.num 4)]])]
      emptyMeta

/-! ## Payload tagger (`internal/processors/payload_tagger.go`) -/

/-- The `PayloadTagger` struct (`tag_fields`, `add_timestamp_tag`,
`add_source_tag`). -/
structure PayloadTagger where
  tagFields : List String
  addTimestamp : Bool
  addSource : Bool

/-- The JSON parse step of `tagMessage`: `json.Unmarshal` into
`map[string]interface{}` succeeds on an object (its map) and on JSON
`null` (the nil map, i.e. no fields); any other value is a parse error,
after which `tagMessage` returns without touching the metadata. -/
def decodeEventMap : Json → Option JsonObj
  | Json.obj event => some event
  | Json.null => some []
  | _ => none

mutual

/-- `fmt.Sprintf("%v", value)` on a decoded JSON value.  Scalars follow
Go's rendering exactly; for composite values the model renders elements in
list order, whereas Go's `%v` prints map keys sorted — a fixed,
deterministic rendering either way, which is all the tagger relies on. -/
def formatValue : Json → String
  | Json.null => "<nil>"
  | Json.bool b => if b then "true" else "false"
  | Json.num n => toString n
  | Json.str s => s
  | Json.arr elems => "[" ++ formatElems elems ++ "]"
  | Json.obj fields => "map[" ++ formatFields fields ++ "]"

/-- Space-separated rendering of a sequence (Go `%v` on a slice). -/
def formatElems : List Json → String
  | [] => ""
  | [x] => formatValue x
  | x :: y :: rest => formatValue x ++ " " ++ formatElems (y :: rest)

/-- Space-separated `k:v` rendering of a mapping (Go `%v` on a map). -/
def formatFields : List (String × Json) → String
  | [] => ""
  | [(k, v)] => k ++ ":" ++ formatValue v
  | (k, v) :: x :: rest => k ++ ":" ++ formatValue v ++ " " ++ formatFields (x :: rest)

end

/-- `addSemanticTags`: the fixed lookup tables from the three well-known
OCSF classifier fields to semantic tag writes.  (Go switches on
`int(value)` of the decoded number.) -/
def PayloadTagger.addSemanticTags (m : Meta) (field : String) (value : Json) : Meta :=
  if field = "class_uid" then
    match value with
    | Json.num classUID =>
      if classUID = 2004 then
        metaSet (metaSet m "tag.category" "detection") "tag.type" "alert"
      else if classUID = 5001 then
        metaSet (metaSet m "tag.category" "asset") "tag.type" "inventory"
      else if classUID = 4001 ∨ classUID = 4002 ∨ classUID = 4003 then
        metaSet (metaSet m "tag.category" "network") "tag.type" "activity"
      else if classUID = 3001 ∨ classUID = 3002 then
        metaSet m "tag.category" "authentication"
      else if classUID = 1001 ∨ classUID = 1002 ∨ classUID = 1003 then
        metaSet (metaSet m "tag.category" "system") "tag.type" "process"
      else m
    | _ => m
  else if field = "severity_id" then
    match value with
    | Json.num severity =>
      if severity = 1 then
        metaSet (metaSet m "tag.severity" "informational") "tag.priority" "low"
      else if severity = 2 then
        metaSet (metaSet m "tag.severity" "low") "tag.priority" "low"
      else if severity = 3 then
        metaSet (metaSet m "tag.severity" "medium") "tag.priority" "medium"
      else if severity = 4 then
        metaSet (metaSet m "tag.severity" "high") "tag.priority" "high"
      else if severity = 5 ∨ severity = 6 then
        metaSet (metaSet m "tag.severity" "critical") "tag.priority" "critical"
      else m
    | _ => m
  else if field = "category_uid" then
    match value with
    | Json.num categoryUID =>
      if categoryUID = 1 then metaSet m "tag.domain" "system"
      else if categoryUID = 2 then metaSet m "tag.domain" "findings"
      else if categoryUID = 3 then metaSet m "tag.domain" "identity"
      else if categoryUID = 4 then metaSet m "tag.domain" "network"
      else if categoryUID = 5 then metaSet m "tag.domain" "discovery"
      else m
    | _ => m
  else m

/-- `addContentTags`: shape-based tags — non-empty observables (plus
count), any observable carrying `threat_intel` (the loop breaks at the
first, setting the two tags once), an `asset` field, `status_id` 1 =
success / anything else = failure, and `metadata.uid` for dedup
tracking. -/
def PayloadTagger.addContentTags (m : Meta) (event : JsonObj) : Meta :=
  let m :=
    match objGet event "observables" with
    | some (Json.arr observables) =>
      if observables.length > 0 then
        let m := metaSet (metaSet m "tag.has_observables" "true")
          "tag.observable_count" (toString observables.length)
        if observables.any (fun obs =>
            match obs with
            | Json.obj obsMap => (objGet obsMap "threat_intel").isSome
            | _ => false) then
          metaSet (metaSet m "tag.has_threat_intel" "true") "tag.threat_detected" "true"
        else m
      else m
    | _ => m
  let m := if (objGet event "asset").isSome then metaSet m "tag.enriched" "asset" else m
  let m :=
    match objGet event "status_id" with
    | some (Json.num status) =>
      if status = 1 then metaSet m "tag.status" "success"
      else metaSet m "tag.status" "failure"
    | _ => m
  match objGet event "metadata" with
  | some (Json.obj msgID) =>
    match objGet msgID "uid" with
    | some (Json.str uid) => metaSet m "tag.event_id" uid
    | _ => m
  | _ => m

/-- The body of the configured-fields loop in `tagMessage`: if the field is
present on the event, write the raw `tag.<field>` entry and then the
semantic tags. -/
def tagFieldStep (event : JsonObj) (m : Meta) (field : String) : Meta :=
  match objGet event field with
  | some value =>
    PayloadTagger.addSemanticTags
      (metaSet m ("tag." ++ field) (formatValue value)) field value
  | none => m

/-- `PayloadTagger.tagMessage`: parse the body (a parse failure is logged
by `ProcessBatch` and the message continues untouched), then the source
tag, the ingestion-timestamp tag copied from `http.received_at`, the
configured-fields loop, and the content tags.  The body is never modified:
only metadata is written. -/
def PayloadTagger.tagMessage (p : PayloadTagger) (body : Json) (m : Meta) : Meta :=
  match decodeEventMap body with
  | none => m
  | some event =>
    let m := if p.addSource then metaSet m "tag.source" "http_receiver" else m
    let m :=
      if p.addTimestamp then
        match metaGet m "http.received_at" with
        | some receivedAt => metaSet m "tag.ingested_at" receivedAt
        | none => m
      else m
    let m := p.tagFields.foldl (tagFieldStep event) m
    PayloadTagger.addContentTags m event

/-! ### Tagger write-list normal form

Every metadata write `tagMessage` performs has a key and value determined
only by the parsed event and the incoming `http.received_at` entry.  The
writes are collected in program order into a list and `tagMessage` is shown
equal to folding `metaSet` over that list, from which idempotence follows:
re-applying the same write list leaves the last-written values in place. -/

/-- Apply a list of metadata writes in order (later writes win). -/
def applyWrites (m : Meta) (ws : List (String × String)) : Meta :=
  ws.foldl (fun m kv => metaSet m kv.1 kv.2) m

/-- The writes of `addSemanticTags`, in program order. -/
def semanticWrites (field : String) (value : Json) : List (String × String) :=
  if field = "class_uid" then
    match value with
    | Json.num classUID =>
      if classUID = 2004 then
        [("tag.category", "detection"), ("tag.type", "alert")]
      else if classUID = 5001 then
        [("tag.category", "asset"), ("tag.type", "inventory")]
      else if classUID = 4001 ∨ classUID = 4002 ∨ classUID = 4003 then
        [("tag.category", "network"), ("tag.type", "activity")]
      else if classUID = 3001 ∨ classUID = 3002 then
        [("tag.category", "authentication")]
      else if classUID = 1001 ∨ classUID = 1002 ∨ classUID = 1003 then
        [("tag.category", "system"), ("tag.type", "process")]
      else []
    | _ => []
  else if field = "severity_id" then
    match value with
    | Json.num severity =>
      if severity = 1 then
        [("tag.severity", "informational"), ("tag.priority", "low")]
      else if severity = 2 then
        [("tag.severity", "low"), ("tag.priority", "low")]
      else if severity = 3 then
        [("tag.severity", "medium"), ("tag.priority", "medium")]
      else if severity = 4 then
        [("tag.severity", "high"), ("tag.priority", "high")]
      else if severity = 5 ∨ severity = 6 then
        [("tag.severity", "critical"), ("tag.priority", "critical")]
      else []
    | _ => []
  else if field = "category_uid" then
    match value with
    | Json.num categoryUID =>
      if categoryUID = 1 then [("tag.domain", "system")]
      else if categoryUID = 2 then [("tag.domain", "findings")]
      else if categoryUID = 3 then [("tag.domain", "identity")]
      else if categoryUID = 4 then [("tag.domain", "network")]
      else if categoryUID = 5 then [("tag.domain", "discovery")]
      else []
    | _ => []
  else []

/-- The writes of one configured-fields loop iteration, in program order. -/
def fieldWrites (event : JsonObj) (field : String) : List (String × String) :=
  match objGet event field with
  | some value => ("tag." ++ field, formatValue value) :: semanticWrites field value
  | none => []

/-- The writes of `addContentTags`, in program order. -/
def contentWrites (event : JsonObj) : List (String × String) :=
  (match objGet event "observables" with
   | some (Json.arr observables) =>
     if observables.length > 0 then
       [("tag.has_observables", "true"),
        ("tag.observable_count", toString observables.length)] ++
       (if observables.any (fun obs =>
            match obs with
            | Json.obj obsMap => (objGet obsMap "threat_intel").isSome
            | _ => false) then
          [("tag.has_threat_intel", "true"), ("tag.threat_detected", "true")]
        else [])
     else []
   | _ => []) ++
  (if (objGet event "asset").isSome then [("tag.enriched", "asset")] else []) ++
  (match objGet event "status_id" with
   | some (Json.num status) =>
     if status = 1 then [("tag.status", "success")] else [("tag.status", "failure")]
   | _ => []) ++
  (match objGet event "metadata" with
   | some (Json.obj msgID) =>
     match objGet msgID "uid" with
     | some (Json.str uid) => [("tag.event_id", uid)]
     | _ => []
   | _ => [])

/-- All writes of one `tagMessage` run, in program order, as a function of
the parsed event and the incoming `http.received_at` entry. -/
def tagWrites (p : PayloadTagger) (event : JsonObj) (receivedAt : Option String) :
    List (String × String) :=
  (if p.addSource then [("tag.source", "http_receiver")] else []) ++
  (if p.addTimestamp then
     match receivedAt with
     | some r => [("tag.ingested_at", r)]
     | none => []
   else []) ++
  (p.tagFields.map (fieldWrites event)).flatten ++
  contentWrites event

theorem applyWrites_nil (m : Meta) : applyWrites m [] = m := rfl

theorem applyWrites_cons (m : Meta) (kv : String × String)
    (ws : List (String × String)) :
    applyWrites m (kv :: ws) = applyWrites (metaSet m kv.1 kv.2) ws := rfl

theorem applyWrites_append (m : Meta) (ws1 ws2 : List (String × String)) :
    applyWrites m (ws1 ++ ws2) = applyWrites (applyWrites m ws1) ws2 := by
  simp [applyWrites, List.foldl_append]

theorem metaGet_metaSet_ne (m : Meta) (k k' v : String) (h : ¬ k = k') :
    metaGet (metaSet m k' v) k = metaGet m k := by
  simp [metaGet, metaSet, h]

/-- The value a write list leaves at a key: the last write to that key, if
any. -/
def lastWrite : List (String × String) → String → Option String
  | [], _ => none
  | kv :: rest, k =>
    match lastWrite rest k with
    | some v => some v
    | none => if k = kv.1 then some kv.2 else none

/-- Reading after a write list: the last write to the key wins, otherwise
the original entry shows through. -/
theorem metaGet_applyWrites (ws : List (String × String)) (m : Meta) (k : String) :
    metaGet (applyWrites m ws) k =
      match lastWrite ws k with
      | some v => some v
      | none => metaGet m k := by
  induction ws generalizing m with
  | nil => rfl
  | cons kv rest ih =>
    rw [applyWrites_cons, ih]
    simp only [lastWrite]
    cases lastWrite rest k with
    | some v => rfl
    | none =>
      by_cases hk : k = kv.1
      · simp [hk, metaGet, metaSet]
      · simp [hk, metaGet_metaSet_ne]

/-- Applying the same write list twice is the same as applying it once. -/
theorem applyWrites_idem (ws : List (String × String)) (m : Meta) :
    applyWrites (applyWrites m ws) ws = applyWrites m ws := by
  funext k
  have h1 := metaGet_applyWrites ws (applyWrites m ws) k
  have h2 := metaGet_applyWrites ws m k
  unfold metaGet at h1 h2
  rw [h1, h2]
  cases lastWrite ws k with
  | some v => rfl
  | none => rfl

/-- `addSemanticTags` equals applying its write list. -/
theorem addSemanticTags_eq (field : String) (value : Json) (m : Meta) :
    PayloadTagger.addSemanticTags m field value =
      applyWrites m (semanticWrites field value) := by
  simp only [PayloadTagger.addSemanticTags, semanticWrites]
  repeat' split
  all_goals simp [applyWrites]

/-- `addContentTags` equals applying its write list. -/
theorem addContentTags_eq (event : JsonObj) (m : Meta) :
    PayloadTagger.addContentTags m event = applyWrites m (contentWrites event) := by
  simp only [PayloadTagger.addContentTags, contentWrites, applyWrites_append]
  repeat' split
  all_goals simp [applyWrites]

/-- The configured-fields loop equals applying the concatenated per-field
write lists. -/
theorem foldl_tagFieldStep (event : JsonObj) (fields : List String) (m : Meta) :
    fields.foldl (tagFieldStep event) m =
      applyWrites m ((fields.map (fieldWrites event)).flatten) := by
  induction fields generalizing m with
  | nil => rfl
  | cons f rest ih =>
    simp only [List.foldl_cons, List.map_cons, List.flatten_cons, applyWrites_append]
    rw [← ih]
    congr 1
    unfold tagFieldStep fieldWrites
    cases objGet event f with
    | none => rfl
    | some value =>
      rw [applyWrites_cons]
      exact addSemanticTags_eq f value (metaSet m ("tag." ++ f) (formatValue value))

/-- `tagMessage` equals applying its full write list to the incoming
metadata, the list depending only on the parsed event and the incoming
`http.received_at` entry. -/
theorem tagMessage_eq (p : PayloadTagger) (body : Json) (m : Meta) :
    PayloadTagger.tagMessage p body m =
      match decodeEventMap body with
      | none => m
      | some event =>
        applyWrites m (tagWrites p event (metaGet m "http.received_at")) := by
  unfold PayloadTagger.tagMessage
  cases decodeEventMap body with
  | none => rfl
  | some event =>
    simp only [tagWrites, applyWrites_append]
    have hread : metaGet
        (if p.addSource then metaSet m "tag.source" "http_receiver" else m)
        "http.received_at" = metaGet m "http.received_at" := by
      cases hb : p.addSource
      · rfl
      · exact metaGet_metaSet_ne m "http.received_at" "tag.source" "http_receiver"
          (by decide)
    rw [addContentTags_eq, foldl_tagFieldStep, hread]
    have hsrc : (if p.addSource then metaSet m "tag.source" "http_receiver" else m) =
        applyWrites m (if p.addSource then [("tag.source", "http_receiver")] else []) := by
      cases hb : p.addSource <;> rfl
    rw [← hsrc]
    cases hb : p.addTimestamp
    · rfl
    · cases metaGet m "http.received_at" <;> rfl

/-- Every key the tagger writes starts with "tag.", so none of them is
`http.received_at`. -/
theorem received_at_ne_tag (s : String) : ¬ ("http.received_at" = "tag." ++ s) := by
  intro h
  have h2 : ("http.received_at").data = ("tag." ++ s).data := congrArg String.data h
  rw [String.data_append] at h2
  have e1 : ("http.received_at").data = 'h' :: "ttp.received_at".data := rfl
  have e2 : ("tag.").data = 't' :: "ag.".data := rfl
  rw [e1, e2, List.cons_append] at h2
  exact absurd (List.cons.inj h2).1 (by decide)

/-- A key written by neither list is written by neither concatenation. -/
theorem lastWrite_append_none (ws1 ws2 : List (String × String)) (k : String)
    (h1 : lastWrite ws1 k = none) (h2 : lastWrite ws2 k = none) :
    lastWrite (ws1 ++ ws2) k = none := by
  induction ws1 with
  | nil => simpa using h2
  | cons kv rest ih =>
    rw [List.cons_append]
    simp only [lastWrite] at h1 ⊢
    cases hr : lastWrite rest k with
    | some v => rw [hr] at h1; exact absurd h1 (by simp)
    | none =>
      rw [hr] at h1
      rw [ih hr]
      simpa using h1

/-- `addSemanticTags` never writes `http.received_at`. -/
theorem semanticWrites_received_at (f : String) (value : Json) :
    lastWrite (semanticWrites f value) "http.received_at" = none := by
  unfold semanticWrites
  repeat' split
  all_goals simp [lastWrite]

/-- A configured-fields iteration never writes `http.received_at`. -/
theorem fieldWrites_received_at (event : JsonObj) (f : String) :
    lastWrite (fieldWrites event f) "http.received_at" = none := by
  unfold fieldWrites
  cases objGet event f with
  | none => rfl
  | some value =>
    simp only [lastWrite]
    rw [semanticWrites_received_at f value]
    simp [received_at_ne_tag f]

/-- The whole configured-fields loop never writes `http.received_at`. -/
theorem flattenFieldWrites_received_at (event : JsonObj) (fields : List String) :
    lastWrite ((fields.map (fieldWrites event)).flatten) "http.received_at" = none := by
  induction fields with
  | nil => rfl
  | cons f rest ih =>
    simp only [List.map_cons, List.flatten_cons]
    exact lastWrite_append_none _ _ _ (fieldWrites_received_at event f) ih

/-- `addContentTags` never writes `http.received_at`. -/
theorem contentWrites_received_at (event : JsonObj) :
    lastWrite (contentWrites event) "http.received_at" = none := by
  unfold contentWrites
  refine lastWrite_append_none _ _ _
    (lastWrite_append_none _ _ _ (lastWrite_append_none _ _ _ ?_ ?_) ?_) ?_
  · repeat' split
    all_goals simp [lastWrite]
  · split <;> simp [lastWrite]
  · repeat' split
    all_goals simp [lastWrite]
  · repeat' split
    all_goals simp [lastWrite]

/-- No `tagMessage` write touches `http.received_at`. -/
theorem tagWrites_received_at (p : PayloadTagger) (event : JsonObj)
    (r : Option String) :
    lastWrite (tagWrites p event r) "http.received_at" = none := by
  unfold tagWrites
  refine lastWrite_append_none _ _ _
    (lastWrite_append_none _ _ _ (lastWrite_append_none _ _ _ ?_ ?_) ?_) ?_
  · cases p.addSource <;> simp [lastWrite]
  · cases p.addTimestamp <;> (try cases r) <;> simp [lastWrite]
  · exact flattenFieldWrites_received_at event p.tagFields
  · exact contentWrites_received_at event

/-- A `tagMessage` run leaves the `http.received_at` entry unchanged. -/
theorem metaGet_tagWrites_received_at (p : PayloadTagger) (event : JsonObj)
    (r : Option String) (m : Meta) :
    metaGet (applyWrites m (tagWrites p event r)) "http.received_at" =
      metaGet m "http.received_at" := by
  rw [metaGet_applyWrites, tagWrites_received_at]

/-- C9: the payload tagger is idempotent: applying `tagMessage` twice to
the same unchanged body yields exactly the same metadata as applying it
once.  Every write is a deterministic function of the body and of the
incoming `http.received_at` entry (which the tagger never overwrites), all
tags are scalar metadata entries set with overwrite semantics, and the
body itself is never modified, so repetition produces no growth. -/
theorem tagger_idempotent (p : PayloadTagger) (body : Json) (m : Meta) :
    PayloadTagger.tagMessage p body (PayloadTagger.tagMessage p body m) =
      PayloadTagger.tagMessage p body m := by
  cases hd : decodeEventMap body with
  | none => simp [tagMessage_eq, hd]
  | some event =>
    simp only [tagMessage_eq, hd]
    rw [metaGet_tagWrites_received_at]
    exact applyWrites_idem _ _
